import Mathlib

/-!
Verification development for the `try` CLI terminal core.

The C sources are shallowly embedded: C byte strings become `List Nat`
(each element a byte value 0..255), C `int` values become `Int` or `Nat`,
floating-point score arithmetic becomes real arithmetic (`Real`), and the
process-global flags (`tui_no_colors`, `window_size_valid`) become explicit
parameters and state records threaded through the functions.

Embedded functions (named after their C sources):
 - `fuzzy_match` (src/fuzzy.c) - the fuzzy match scorer, returning the score
   that the C code stores into `entry->score`; `time(NULL)` becomes the
   explicit `now` parameter and `entry->mtime` the `mtime` parameter.
 - `tui_style_flags`, `tui_push`, `tui_pop`, `tui_print`, `tui_emit_resets`,
   `tui_reemit_flags` (tui_style.c) - the style stack engine.
 - `truncate_at_width` (tui_style.c) - width-aware truncation offset.
 - `read_key`, `get_window_size` (terminal.c) - the key decoder and the
   cached window-size query.
 - `tui_input_handle_key` (tui_style.c) - the input-field key handler.
-/

/-! ### Byte-level character classification (ctype.h, "C" locale, ASCII) -/

/-- C `isdigit` on a byte. -/
def isDigitByte (b : Nat) : Bool := 48 ≤ b && b ≤ 57

/-- C `isalnum` on a byte ("C" locale: ASCII letters and digits only). -/
def isAlnumByte (b : Nat) : Bool :=
  isDigitByte b || (65 ≤ b && b ≤ 90) || (97 ≤ b && b ≤ 122)

/-- C `tolower` on a byte ("C" locale: only A-Z map down). -/
def lowerByte (b : Nat) : Nat := if 65 ≤ b ∧ b ≤ 90 then b + 32 else b

/-- C `iscntrl` on an `int` key code ("C" locale: 0..31 and 127). -/
def iscntrlInt (k : Int) : Bool := (0 ≤ k && k ≤ 31) || k = 127

/-! ### Fuzzy match scorer (src/fuzzy.c) -/

/-- Embeds `has_date_prefix` from src/fuzzy.c: the name starts with the
11-byte `YYYY-MM-DD-` pattern (`-` is byte 45). -/
def dateStamped (text : List Nat) : Bool :=
  match text with
  | a :: b :: c :: d :: e :: f :: g :: h :: i :: j :: k :: _ =>
      isDigitByte a && isDigitByte b && isDigitByte c && isDigitByte d &&
      e = 45 && isDigitByte f && isDigitByte g && h = 45 &&
      isDigitByte i && isDigitByte j && k = 45
  | _ => false

/-- The character-matching loop of `fuzzy_match` (src/fuzzy.c lines 61-91).
`t` is the remaining lowercased name, `q` the remaining lowercased query,
`pos` the current position (`current_pos`), `lastPos` the position of the
previous match (`last_pos`, `none` for the initial -1), `prev` the previous
lowercased name byte (`*(t_ptr - 1)`, `none` at position 0), and `acc` the
score accumulated so far.  Returns the unmatched query remainder, the final
`last_pos` and the accumulated score. -/
noncomputable def fuzzyLoop :
    List Nat → List Nat → Nat → Option Nat → Option Nat → ℝ →
    List Nat × Option Nat × ℝ
  | [], q, _, lastPos, _, acc => (q, lastPos, acc)
  | c :: rest, q, pos, lastPos, prev, acc =>
    let lc := lowerByte c
    match q with
    | q0 :: qs =>
      if lc = q0 then
        -- match: base point, word-boundary bonus, proximity bonus
        let s1 := acc + 1
        let s2 := s1 + (match prev with
          | none => (1 : ℝ)
          | some p => if isAlnumByte p then 0 else 1)
        let s3 := s2 + (match lastPos with
          | none => (0 : ℝ)
          | some lp => 1 / Real.sqrt (((pos - lp - 1 : Nat) : ℝ) + 1))
        fuzzyLoop rest qs (pos + 1) (some pos) (some lc) s3
      else
        fuzzyLoop rest (q0 :: qs) (pos + 1) lastPos (some lc) acc
    | [] => fuzzyLoop rest [] (pos + 1) lastPos (some lc) acc

/-- The time-based bonus of `fuzzy_match` (src/fuzzy.c lines 109-120):
`age` is `difftime(now, entry->mtime)` in seconds. -/
noncomputable def time_bonus (age : Int) : ℝ :=
  if (age : ℝ) < 3600 then 0.5
  else if (age : ℝ) < 86400 then 0.3
  else if (age : ℝ) < 604800 then 0.1
  else 0

/-- Embeds `fuzzy_match` from src/fuzzy.c (the score it stores into
`entry->score`).  `now` is the value of `time(NULL)` and `mtime` is
`entry->mtime`.  Mirrors the source exactly: the +2.0 date-prefix bonus is
added to the running score BEFORE the matching loop, the density and length
multipliers scale the whole running score, a failed match returns 0 before
the time bonus, and the step time bonus is added last. -/
noncomputable def fuzzy_match (name query : List Nat) (now mtime : Int) : ℝ :=
  let base : ℝ := if dateStamped name then 2 else 0
  if query = [] then base + time_bonus (now - mtime)
  else
    let out := fuzzyLoop (name.map lowerByte) (query.map lowerByte) 0 none none base
    if out.1 ≠ [] then 0
    else
      let s1 := match out.2.1 with
        | some lp => out.2.2 * ((query.length : ℝ) / ((lp : ℝ) + 1))
        | none => out.2.2
      let s2 := s1 * (10 / ((name.length : ℝ) + 10))
      s2 + time_bonus (now - mtime)

/-- Case-insensitive ordered-subsequence test (the matching criterion the
loop in `fuzzy_match` implements). -/
def isSubseqCI : List Nat → List Nat → Bool
  | [], _ => true
  | _ :: _, [] => false
  | q0 :: qs, t0 :: ts =>
    if lowerByte t0 = lowerByte q0 then isSubseqCI qs ts
    else isSubseqCI (q0 :: qs) ts

/-! ### Style stack engine (src/tui_style.c)

Category bitmask constants from tui_style.h:
`TUI_CHANGES_FG = 1`, `TUI_CHANGES_BG = 2`, `TUI_CHANGES_BOLD = 4`,
`TUI_CHANGES_DIM = 8`.  The global `tui_no_colors` flag becomes the
explicit `noColors : Bool` parameter. -/

/-- Byte list of the escape string `ESC [ 2 2 m` (ANSI_BOLD_OFF = ANSI_DIM_OFF). -/
def ansiBoldOff : List Nat := [27, 91, 50, 50, 109]

/-- Byte list of `ESC [ 3 9 m` (ANSI_RESET_FG). -/
def ansiResetFg : List Nat := [27, 91, 51, 57, 109]

/-- Byte list of `ESC [ 4 9 m` (ANSI_RESET_BG). -/
def ansiResetBg : List Nat := [27, 91, 52, 57, 109]

/-- Classification of one numeric CSI parameter in `tui_style_flags`
(tui_style.c lines 25-34). -/
def classifyCode (code : Nat) : Nat :=
  if code = 1 then 4
  else if code = 2 then 8
  else if (30 ≤ code ∧ code ≤ 37) ∨ code = 38 ∨ code = 39 ∨
          (90 ≤ code ∧ code ≤ 97) then 1
  else if (40 ≤ code ∧ code ≤ 47) ∨ code = 48 ∨ code = 49 ∨
          (100 ≤ code ∧ code ≤ 107) then 2
  else 0

/-- The digit-parsing loop of `tui_style_flags` (tui_style.c lines 20-24):
accumulates `code = code * 10 + (*p - '0')` over leading digit bytes. -/
def takeDigits : List Nat → Nat → Nat × List Nat
  | [], code => (code, [])
  | b :: r, code =>
    if 48 ≤ b ∧ b ≤ 57 then takeDigits r (code * 10 + (b - 48))
    else (code, b :: r)

/-- The scanning state machine of `tui_style_flags`.  `inner = false` is the
outer `while (*p)` loop looking for `ESC [`; `inner = true` is the inner
parameter loop.  `fuel` only bounds the recursion; each step consumes fuel
and the top-level entry point supplies more fuel than the number of steps
the C loops can take (every inner step either consumes a byte or hands the
very same position back to the outer loop, which then consumes it). -/
def sfGo : Nat → Bool → List Nat → Nat
  | 0, _, _ => 0
  | _ + 1, false, [] => 0
  | fuel + 1, false, 27 :: 91 :: rest => sfGo fuel true rest
  | fuel + 1, false, _ :: rest => sfGo fuel false rest
  | fuel + 1, true, l =>
    let cd := takeDigits l 0
    let f := classifyCode cd.1
    match cd.2 with
    | 59 :: r2 => f ||| sfGo fuel true r2      -- ';' : next parameter
    | 109 :: r2 => f ||| sfGo fuel false r2    -- 'm' : sequence done
    | r => f ||| sfGo fuel false r             -- break: outer loop rescans

/-- Embeds `tui_style_flags` from src/tui_style.c: scan the style string for
`ESC [` sequences and OR together the category bits of every numeric
parameter found. -/
def tui_style_flags (style : List Nat) : Nat := sfGo (2 * style.length + 2) false style

/-- Embeds the `TuiStyles` struct (tui_style.h): the per-frame stored style
strings and flag words (C arrays of size 8, indexed 1..depth; modelled as
functions), plus the depth counter.  The vestigial `stack` array of
`TuiStyleFrame` records is written only at initialisation and never read,
so it is not modelled. -/
structure TuiStyles where
  style_strs : Nat → List Nat
  style_flags : Nat → Nat
  depth : Nat

/-- Embeds `tui_styles` (tui_style.c): the zeroed initial stack. -/
def tui_styles : TuiStyles :=
  { style_strs := fun _ => [], style_flags := fun _ => 0, depth := 0 }

/-- Embeds the `TuiStyleString` struct: target byte buffer plus stack. -/
structure TuiStyleString where
  str : List Nat
  styles : TuiStyles

/-- Embeds `tui_start_zstr` (tui_style.c): clear the buffer, fresh stack. -/
def tui_start_zstr : TuiStyleString := { str := [], styles := tui_styles }

/-- Embeds `tui_emit_resets` (tui_style.c lines 96-107): targeted reset
codes for each category bit, in the fixed order BOLD, DIM, FG, BG;
suppressed entirely when colors are disabled. -/
def tui_emit_resets (noColors : Bool) (flags : Nat) : List Nat :=
  if noColors then []
  else
    (if flags &&& 4 ≠ 0 then ansiBoldOff else []) ++
    (if flags &&& 8 ≠ 0 then ansiBoldOff else []) ++
    (if flags &&& 1 ≠ 0 then ansiResetFg else []) ++
    (if flags &&& 2 ≠ 0 then ansiResetBg else [])

/-- Embeds `tui_reemit_flags` (tui_style.c lines 86-94): walk frames 1..depth
bottom to top and re-emit every stored style whose flag word intersects
`flags`; suppressed when colors are disabled. -/
def tui_reemit_flags (noColors : Bool) (st : TuiStyles) (flags : Nat) : List Nat :=
  if noColors then []
  else
    ((List.range st.depth).map (fun j =>
      if st.style_flags (j + 1) &&& flags ≠ 0 then st.style_strs (j + 1) else [])).flatten

/-- Embeds `tui_push` (tui_style.c lines 113-128): empty styles are ignored;
at depth `TUI_STYLE_STACK_MAX - 1 = 7` the push is dropped silently;
otherwise the style (truncated to `TUI_STYLE_STR_MAX - 1 = 31` bytes) and
its flags are stored at the new depth and, with colors enabled, the raw
style bytes are appended to the buffer. -/
def tui_push (noColors : Bool) (ss : TuiStyleString) (style : List Nat) : TuiStyleString :=
  if style = [] then ss
  else if 7 ≤ ss.styles.depth then ss
  else
    let d := ss.styles.depth + 1
    { str := ss.str ++ (if noColors then [] else style),
      styles :=
        { style_strs := Function.update ss.styles.style_strs d (style.take 31),
          style_flags := Function.update ss.styles.style_flags d (tui_style_flags style),
          depth := d } }

/-- Embeds `tui_pop` (tui_style.c lines 130-139): no-op at depth 0;
otherwise drop the top frame and, with colors enabled and a non-zero flag
word, emit the targeted resets followed by the bottom-to-top re-emission
over the remaining frames. -/
def tui_pop (noColors : Bool) (ss : TuiStyleString) : TuiStyleString :=
  if ss.styles.depth = 0 then ss
  else
    let flags := ss.styles.style_flags ss.styles.depth
    let st := { ss.styles with depth := ss.styles.depth - 1 }
    if noColors = false ∧ flags ≠ 0 then
      { str := ss.str ++ tui_emit_resets noColors flags ++ tui_reemit_flags noColors st flags,
        styles := st }
    else { str := ss.str, styles := st }

/-- Embeds `tui_print` (tui_style.c lines 141-152): with colors enabled and a
non-empty style, append the style bytes, then the text, then (if the style's
flag word is non-zero) the same reset + re-emit reconciliation as `tui_pop`,
with the stack left unchanged. -/
def tui_print (noColors : Bool) (ss : TuiStyleString) (style text : List Nat) : TuiStyleString :=
  let useStyle := noColors = false ∧ style ≠ []
  let flags := if useStyle then tui_style_flags style else 0
  let s1 := ss.str ++ (if useStyle then style else []) ++ text
  if flags ≠ 0 then
    { str := s1 ++ tui_emit_resets noColors flags ++ tui_reemit_flags noColors ss.styles flags,
      styles := ss.styles }
  else { str := s1, styles := ss.styles }

/-- The set of active category flags: the bitwise OR of the flag words of
all frames currently on the stack (frames 1..depth). -/
def active_flags (st : TuiStyles) : Nat :=
  ((List.range st.depth).map (fun j => st.style_flags (j + 1))).foldr (· ||| ·) 0

/-! ### Width-aware truncation (src/tui_style.c lines 226-306) -/

/-- ASCII letter test used by the escape-skipping loops in `visible_width`
and `truncate_at_width` (`'A'..'Z'` or `'a'..'z'`). -/
def isLetterByte (b : Nat) : Bool := (65 ≤ b && b ≤ 90) || (97 ≤ b && b ≤ 122)

/-- The `while (i < len && !letter) i++` scan: returns the number of leading
non-letter bytes and the remainder (which starts with a letter or is empty). -/
def spanNonLetter : List Nat → Nat × List Nat
  | [] => (0, [])
  | b :: r =>
    if isLetterByte b then (0, b :: r)
    else
      let p := spanNonLetter r
      (p.1 + 1, p.2)

/-- The remainder returned by `spanNonLetter` is no longer than its input. -/
theorem spanNonLetter_len_le (l : List Nat) : (spanNonLetter l).2.length ≤ l.length := by
  induction l with
  | nil => simp [spanNonLetter]
  | cons b r ih =>
    by_cases hb : isLetterByte b
    · simp [spanNonLetter, hb]
    · simp only [spanNonLetter, hb, Bool.false_eq_true, if_false, List.length_cons]
      omega

/-- Embeds `decode_utf8` (tui_style.c lines 227-246) at a lead byte `c` with
the following bytes `rest`: returns the decoded codepoint and how many
continuation bytes the C code advances past (its `*i` adjustment); the
bounds tests `*i + k < len` become length tests on `rest`. -/
def decode_utf8 (c : Nat) (rest : List Nat) : Nat × Nat :=
  if c &&& 128 = 0 then (c, 0)
  else if c &&& 224 = 192 ∧ 1 ≤ rest.length then
    (((c &&& 31) <<< 6) ||| (rest.getD 0 0 &&& 63), 1)
  else if c &&& 240 = 224 ∧ 2 ≤ rest.length then
    (((c &&& 15) <<< 12) ||| ((rest.getD 0 0 &&& 63) <<< 6) ||| (rest.getD 1 0 &&& 63), 2)
  else if c &&& 248 = 240 ∧ 3 ≤ rest.length then
    (((c &&& 7) <<< 18) ||| ((rest.getD 0 0 &&& 63) <<< 12) |||
       ((rest.getD 1 0 &&& 63) <<< 6) ||| (rest.getD 2 0 &&& 63), 3)
  else (0, 0)

/-- Embeds `codepoint_width` (tui_style.c lines 249-254). -/
def codepoint_width (cp : Nat) : Nat :=
  if cp < 128 then 1
  else if 127744 ≤ cp ∧ cp ≤ 129791 then 2
  else if 9728 ≤ cp ∧ cp ≤ 10175 then 2
  else 1

/-- The loop of `truncate_at_width` (tui_style.c lines 281-306), phrased as
the number of bytes consumed before the truncation point: the C loop walks
an index `i` and either returns `start` (the byte offset of the codepoint
that would overflow the budget, here: 0 more bytes consumed) or `len`
(everything consumed).  Escape sequences (`ESC [` up to and including the
terminating letter) pass through uncounted, continuation bytes are skipped,
and each decoded codepoint is committed only if its width still fits. -/
def truncate_go (l : List Nat) (width : Nat) (maxw : Int) : Nat :=
  match l with
  | [] => 0
  | c :: rest =>
    if c = 27 ∧ rest.head? = some 91 then
      -- ESC [ : skip the sequence through its terminating letter
      match h : spanNonLetter rest.tail with
      | (n, []) => 2 + n
      | (n, _t :: r2) => 3 + n + truncate_go r2 width maxw
    else if c &&& 192 = 128 then 1 + truncate_go rest width maxw
    else
      let d := decode_utf8 c rest
      let w := codepoint_width d.1
      if (width : Int) + w > maxw then 0
      else 1 + d.2 + truncate_go (rest.drop d.2) (width + w) maxw
termination_by l.length
decreasing_by
  · have hle := spanNonLetter_len_le r.tail
    rw [h] at hle
    have ht := List.length_tail r
    simp only [List.length_cons] at hle ⊢
    omega
  · simp only [List.length_cons]
    omega
  · simp only [List.length_cons, List.length_drop]
    omega

/-- Embeds `truncate_at_width` (tui_style.c): byte offset at which the line
must be cut so the visible width fits in `max_width`. -/
def truncate_at_width (s : List Nat) (max_width : Int) : Nat := truncate_go s 0 max_width

/-- Stripping escape sequences from a byte string: removes every `ESC [`
sequence up to and including its terminating letter (the same sequences the
truncation loop passes through uncounted) and keeps every other byte. -/
def strip_escapes (l : List Nat) : List Nat :=
  match l with
  | [] => []
  | b :: rest =>
    if b = 27 ∧ rest.head? = some 91 then
      match h : spanNonLetter rest.tail with
      | (_, []) => []
      | (_, _t :: r2) => strip_escapes r2
    else b :: strip_escapes rest
termination_by l.length
decreasing_by
  · have hle := spanNonLetter_len_le r.tail
    rw [h] at hle
    have ht := List.length_tail r
    simp only [List.length_cons] at hle ⊢
    omega
  · simp only [List.length_cons]
    omega

/-! ### Key decoder and window size (terminal.c, the version with mouse
handling and the window-size cache)

Key constants from terminal.h. -/

def BACKSPACE : Int := 127
def ARROW_LEFT : Int := 1000
def ARROW_RIGHT : Int := 1001
def ARROW_UP : Int := 1002
def ARROW_DOWN : Int := 1003
def DEL_KEY : Int := 1004
def HOME_KEY : Int := 1005
def END_KEY : Int := 1006
def PAGE_UP : Int := 1007
def PAGE_DOWN : Int := 1008
def KEY_UNKNOWN : Int := 1009
def KEY_RESIZE : Int := -2

/-- One outcome of a 1-byte `read` on stdin: a byte arrives, the call is
interrupted by a signal (`errno == EINTR`), the call reports `EAGAIN`, or
it fails with some other error.  End of the list models end of input
(`read` returns 0 / times out). -/
inductive InEv where
  | byte (b : Nat)
  | eintr
  | eagain
  | rderr
deriving DecidableEq, Repr

/-- The window-size cache (`cached_rows`, `cached_cols`,
`window_size_valid` statics in terminal.c). -/
structure WinCache where
  valid : Bool
  rows : Int
  cols : Int
deriving DecidableEq, Repr

/-- One non-blocking sequence read in `read_key` (`read(...) != 1` is any
non-byte outcome; the attempt consumes the event that made it fail). -/
def readSeq : List InEv → Option Nat × List InEv
  | [] => (none, [])
  | .byte b :: r => (some b, r)
  | _ :: r => (none, r)

/-- The SGR mouse-report consumption loop (terminal.c lines 196-199):
`while (read(...) == 1) if (discard == 'M' || discard == 'm') break;`. -/
def consumeSGR : List InEv → List InEv
  | [] => []
  | .byte b :: r => if b = 77 ∨ b = 109 then r else consumeSGR r
  | _ :: r => r

/-- The X10 mouse consumption `read(STDIN_FILENO, discard, 3)` (terminal.c
line 205): consumes up to 3 available bytes. -/
def dropBytes : Nat → List InEv → List InEv
  | 0, l => l
  | n + 1, .byte _ :: r => dropBytes n r
  | _ + 1, l => l

/-- The CSI consume-until-terminator loop (terminal.c lines 249-253 and
258-262): starting from the byte `last`, keep reading while `last` is not
in the final-byte range `0x40..0x7E`; a failed read breaks the loop. -/
def consumeCSI (last : Nat) (l : List InEv) : List InEv :=
  if 64 ≤ last ∧ last ≤ 126 then l
  else
    match l with
    | [] => []
    | .byte b :: r => consumeCSI b r
    | _ :: r => r

/-- The `\x1b[<digit>~` table (terminal.c lines 229-245). -/
def tildeKey (d : Nat) : Int :=
  if d = 49 then HOME_KEY
  else if d = 51 then DEL_KEY
  else if d = 52 then END_KEY
  else if d = 53 then PAGE_UP
  else if d = 54 then PAGE_DOWN
  else if d = 55 then HOME_KEY
  else if d = 56 then END_KEY
  else KEY_UNKNOWN

/-- The escape-sequence classification of `read_key` (terminal.c lines
156-275), entered after the initial `ESC` byte; `v` is the window-size
cache.  Returns the key event, the remaining input and the cache. -/
def readEscape (input : List InEv) (v : WinCache) : Int × List InEv × WinCache :=
  match readSeq input with
  | (none, r0) => (27, r0, v)
  | (some s0, r1) =>
    match readSeq r1 with
    | (none, r2) => (27, r2, v)
    | (some s1, r2) =>
      if s0 = 91 then
        if s1 = 60 then (KEY_UNKNOWN, consumeSGR r2, v)
        else if s1 = 77 then (KEY_UNKNOWN, dropBytes 3 r2, v)
        else if s1 = 65 then (ARROW_UP, r2, v)
        else if s1 = 66 then (ARROW_DOWN, r2, v)
        else if s1 = 67 then (ARROW_RIGHT, r2, v)
        else if s1 = 68 then (ARROW_LEFT, r2, v)
        else if s1 = 72 then (HOME_KEY, r2, v)
        else if s1 = 70 then (END_KEY, r2, v)
        else if 48 ≤ s1 ∧ s1 ≤ 57 then
          match readSeq r2 with
          | (none, r3) => (KEY_UNKNOWN, r3, v)
          | (some s2, r3) =>
            if s2 = 126 then (tildeKey s1, r3, v)
            else (KEY_UNKNOWN, consumeCSI s2 r3, v)
        else if ¬(64 ≤ s1 ∧ s1 ≤ 126) then (KEY_UNKNOWN, consumeCSI s1 r2, v)
        else (KEY_UNKNOWN, r2, v)
      else if s0 = 79 then
        if s1 = 72 then (HOME_KEY, r2, v)
        else if s1 = 70 then (END_KEY, r2, v)
        else (KEY_UNKNOWN, r2, v)
      else (KEY_UNKNOWN, r2, v)

/-- Embeds `read_key` (terminal.c lines 137-276).  The blocking 1-byte read
loop: `EAGAIN` retries, `EINTR` invalidates the window-size cache and
returns `KEY_RESIZE` immediately, other errors and end of input return -1,
and a plain byte is either returned directly or starts escape decoding. -/
def read_key (input : List InEv) (v : WinCache) : Int × List InEv × WinCache :=
  match input with
  | [] => (-1, [], v)
  | .eagain :: r => read_key r v
  | .eintr :: r => (KEY_RESIZE, r, { v with valid := false })
  | .rderr :: r => (-1, r, v)
  | .byte b :: r => if b = 27 then readEscape r v else ((b : Int), r, v)

/-- The uncached window-size query chain of `get_window_size` (terminal.c
lines 286-332): `TRY_WIDTH`/`TRY_HEIGHT` environment overrides (modelled by
their parsed `atoi` values), then the `TIOCGWINSZ` ioctl (`some (rows,
cols)` when it succeeds), then the two `tput` invocations, then the fixed
80 x 24 default.  Returns `(rows, cols)`. -/
def query_window_size (envW envH : Option Int) (dev : Option (Int × Int))
    (tputCols tputRows : Option Int) : Int × Int :=
  let fromDev : Int × Int :=
    match dev with
    | some (r, c) =>
      if c ≠ 0 then (r, c)
      else
        match tputCols, tputRows with
        | some tc, some tr => (tr, tc)
        | _, _ => (24, 80)
    | none =>
      match tputCols, tputRows with
      | some tc, some tr => (tr, tc)
      | _, _ => (24, 80)
  match envW, envH with
  | some w, some h => if 0 < w ∧ 0 < h then (h, w) else fromDev
  | some w, none => if 0 < w then (24, w) else fromDev
  | none, _ => fromDev

/-- Embeds `get_window_size` (terminal.c lines 278-339): return the cached
dimensions while the cache is valid, otherwise run the query chain and
cache its result.  Returns `((rows, cols), cache')`. -/
def get_window_size (cache : WinCache) (envW envH : Option Int)
    (dev : Option (Int × Int)) (tputCols tputRows : Option Int) :
    (Int × Int) × WinCache :=
  if cache.valid then ((cache.rows, cache.cols), cache)
  else
    let q := query_window_size envW envH dev tputCols tputRows
    (q, { valid := true, rows := q.1, cols := q.2 })

/-! ### Input field (tui_style.c lines 451-584) -/

/-- Embeds the `TuiInput` struct: text buffer (bytes) and cursor index
(a C `int`).  The optional placeholder plays no role in key handling. -/
structure TuiInput where
  text : List Nat
  cursor : Int
deriving DecidableEq, Repr

/-- The `while (end_pos >= 0 && !isalnum(data[end_pos])) end_pos--` scan of
the Ctrl-W branch (tui_style.c lines 547-548). -/
def skipNonAlnum (data : List Nat) (e : Int) : Int :=
  if 0 ≤ e ∧ ¬ isAlnumByte (data.getD e.toNat 0) then skipNonAlnum data (e - 1)
  else e
termination_by (e + 1).toNat
decreasing_by omega

/-- The `while (start_pos >= 0 && isalnum(data[start_pos])) start_pos--`
scan of the Ctrl-W branch (tui_style.c lines 550-551). -/
def skipAlnum (data : List Nat) (e : Int) : Int :=
  if 0 ≤ e ∧ isAlnumByte (data.getD e.toNat 0) then skipAlnum data (e - 1)
  else e
termination_by (e + 1).toNat
decreasing_by omega

/-- Embeds `tui_input_handle_key` (tui_style.c lines 465-584).  Returns the
C function's `bool` result and the updated field.  The rebuild loops of the
editing branches (`for i ...: zstr_push`) are rendered with `List.take` /
`List.drop` at the loop bounds, which is exactly what the loops build for
any in-range cursor (each branch is guarded the same way as the source). -/
def tui_input_handle_key (input : TuiInput) (key : Int) : Bool × TuiInput :=
  let len : Int := input.text.length
  let cur := input.cursor
  let text := input.text
  if key = 1 then (true, { input with cursor := 0 })
  else if key = 5 then (true, { input with cursor := len })
  else if key = 2 ∨ key = ARROW_LEFT then
    (true, if 0 < cur then { input with cursor := cur - 1 } else input)
  else if key = 6 ∨ key = ARROW_RIGHT then
    (true, if cur < len then { input with cursor := cur + 1 } else input)
  else if key = BACKSPACE ∨ key = 8 then
    if 0 < cur then
      (true, { text := text.take (cur - 1).toNat ++ text.drop cur.toNat,
               cursor := cur - 1 })
    else (true, input)
  else if key = DEL_KEY then
    if cur < len then
      (true, { text := text.take cur.toNat ++ text.drop (cur + 1).toNat,
               cursor := cur })
    else (true, input)
  else if key = 11 then  -- Ctrl-K: kill to end
    if cur < len then (true, { text := text.take cur.toNat, cursor := cur })
    else (true, input)
  else if key = 21 then  -- Ctrl-U: kill to start
    if 0 < cur then (true, { text := text.drop cur.toNat, cursor := 0 })
    else (true, input)
  else if key = 23 then  -- Ctrl-W: kill word
    if 0 < cur then
      let ep := skipNonAlnum text (cur - 1)
      let sp := skipAlnum text ep + 1
      (true, { text := text.take sp.toNat ++ text.drop cur.toNat, cursor := sp })
    else (true, input)
  else if ¬ iscntrlInt key ∧ 32 ≤ key ∧ key < 127 then
    (true, { text := text.take cur.toNat ++ key.toNat :: text.drop cur.toNat,
             cursor := cur + 1 })
  else (false, input)

/-! ### Claim theorems -/

/-- C1: the claim states that the density and length multipliers apply to
the accumulated per-character match score only, with the +2.0 structured
date-prefix bonus added after them and never scaled down - which would make
every date-prefixed matching candidate score at least 2.0 before recency.
The code instead adds the +2.0 bonus before the matching loop, so the
multipliers scale it: for name `2025-01-01-x` (bytes below), query `x`, and
an access 10^6 seconds old, the embedded scorer returns exactly
(2 + 1 + 1) x (1/12) x (10/22) = 5/33 < 2. -/
theorem C1_date_bonus_scaled :
    dateStamped [50, 48, 50, 53, 45, 48, 49, 45, 48, 49, 45, 120] = true ∧
    fuzzy_match [50, 48, 50, 53, 45, 48, 49, 45, 48, 49, 45, 120] [120] 2000000 1000000
      = 5 / 33 ∧
    (5 / 33 : ℝ) < 2 := by
  refine ⟨by decide, ?_, by norm_num⟩
  simp [fuzzy_match, fuzzyLoop, lowerByte, isAlnumByte, isDigitByte, dateStamped, time_bonus]
  norm_num

/-- C2: the claim states the score strictly decreases as the elapsed time
`now - mtime` grows, with recency contribution `3.0/sqrt(hours+1)`.  The
code's time bonus is the step function 0.5 / 0.3 / 0.1 / 0 (src/fuzzy.c
lines 109-120): for name `x`, empty query, the scores at ages 7200 s and
10800 s are equal (both get the `< 86400` step of +0.3), refuting strict
decrease. -/
theorem C2_recency_not_strictly_decreasing :
    (1000000 - 992800 : Int) < 1000000 - 989200 ∧
    fuzzy_match [120] [] 1000000 992800 = fuzzy_match [120] [] 1000000 989200 := by
  refine ⟨by norm_num, ?_⟩
  simp [fuzzy_match, dateStamped, time_bonus]
  norm_num

/-- C3: the claim states the score is 0 exactly when the query is not a
case-insensitive ordered subsequence, so every matching candidate
(including the empty query) scores strictly positive.  The code gives score
0 to a matching candidate: name `x` (no date prefix), empty query, accessed
10^6 seconds ago - no prefix bonus, and the step time bonus is 0 beyond one
week, so `fuzzy_match` returns 0 although the empty query matches. -/
theorem C3_matching_candidate_scores_zero :
    isSubseqCI [] [120] = true ∧
    fuzzy_match [120] [] 2000000 1000000 = 0 := by
  refine ⟨by decide, ?_⟩
  simp [fuzzy_match, dateStamped, time_bonus]
  norm_num

/-- C9: a push onto a stack already at the maximum depth
(`TUI_STYLE_STACK_MAX - 1 = 7`) is dropped silently: the returned state -
depth, every stored frame string and flag word, and the output buffer - is
exactly the input state, for any style and either color mode. -/
theorem C9_push_at_max_depth_is_noop (noColors : Bool) (ss : TuiStyleString)
    (style : List Nat) (h : 7 ≤ ss.styles.depth) :
    tui_push noColors ss style = ss := by
  rw [tui_push]
  rcases eq_or_ne style [] with hs | hs
  · simp [hs]
  · simp [hs, h]

/-- A concrete stack state at the maximum depth 7 for the C9 witness. -/
def c9_state : TuiStyleString :=
  { str := [27, 91, 49, 109],
    styles := { style_strs := fun _ => [27, 91, 49, 109],
                style_flags := fun _ => 4, depth := 7 } }

/-- C9 witness: pushing the bold style onto a full stack changes nothing. -/
theorem C9_witness :
    7 ≤ c9_state.styles.depth ∧ tui_push false c9_state [27, 91, 49, 109] = c9_state :=
  ⟨by decide, C9_push_at_max_depth_is_noop false c9_state [27, 91, 49, 109] (by decide)⟩

/-- C8: when the blocking one-byte read in `read_key` is interrupted by
signal delivery (an `EINTR` outcome, possibly after `EAGAIN` retries),
`read_key` returns the `KEY_RESIZE` sentinel immediately, consumes nothing
beyond the interrupted read, and invalidates the window-size cache - so the
next `get_window_size` call ignores the stale cached dimensions and returns
whatever the environment/device/tput query chain currently reports. -/
theorem C8_eintr_returns_resize_and_invalidates (n : Nat) (rest : List InEv)
    (c : WinCache) (envW envH : Option Int) (dev : Option (Int × Int))
    (tputCols tputRows : Option Int) :
    read_key (List.replicate n .eagain ++ .eintr :: rest) c
      = (KEY_RESIZE, rest, { c with valid := false }) ∧
    (get_window_size { c with valid := false } envW envH dev tputCols tputRows).1
      = query_window_size envW envH dev tputCols tputRows := by
  constructor
  · induction n with
    | zero => simp [read_key]
    | succ k ih => simpa [List.replicate_succ, read_key] using ih
  · simp [get_window_size]

/-- C7 counterexample: the claim says a mouse report (`ESC [ <` ...)
produces no key event at all, i.e. the decoder is transparent and returns
the event decoded from the following input.  On the concrete stream
`ESC [ < 0 M` followed by the byte `a`, the code returns the
`KEY_UNKNOWN` sentinel (1009), not the `a` (97) that the following input
would produce. -/
theorem C7_counterexample :
    (read_key [.byte 27, .byte 91, .byte 60, .byte 48, .byte 77, .byte 97]
        ⟨true, 24, 80⟩).1 = KEY_UNKNOWN ∧
    (read_key [.byte 97] ⟨true, 24, 80⟩).1 = 97 ∧
    KEY_UNKNOWN ≠ (97 : Int) := by
  refine ⟨?_, by decide, by decide⟩
  decide

/-- The SGR consumption loop eats the whole report up to its `M`/`m`. -/
theorem consumeSGR_through_report (ps : List Nat) (rest : List InEv)
    (h : ∀ b ∈ ps, b ≠ 77 ∧ b ≠ 109) :
    consumeSGR (ps.map InEv.byte ++ .byte 77 :: rest) = rest := by
  induction ps with
  | nil => simp [consumeSGR]
  | cons p pr ih =>
    have hp := h p (by simp)
    simp only [List.map_cons, List.cons_append, consumeSGR]
    rw [if_neg (by tauto)]
    exact ih (fun b hb => h b (by simp [hb]))

/-- C7 amended: on `ESC [ <` the decoder consumes the entire SGR mouse
report (through its terminating `M`/`m`) and on `ESC [ M` it consumes the
3-byte X10 report, and in both cases it returns the unknown-but-consumed
sentinel `KEY_UNKNOWN` (which the caller ignores) rather than producing no
event at all. -/
theorem C7_mouse_report_returns_unknown (ps : List Nat) (rest : List InEv)
    (v : WinCache) (b1 b2 b3 : Nat) (h : ∀ b ∈ ps, b ≠ 77 ∧ b ≠ 109) :
    read_key (.byte 27 :: .byte 91 :: .byte 60 :: ps.map InEv.byte ++ .byte 77 :: rest) v
      = (KEY_UNKNOWN, rest, v) ∧
    read_key [.byte 27, .byte 91, .byte 77, .byte b1, .byte b2, .byte b3] v
      = (KEY_UNKNOWN, [], v) := by
  constructor
  · simp [read_key, readEscape, readSeq, consumeSGR_through_report ps rest h]
  · simp [read_key, readEscape, readSeq, dropBytes]

/-- C7 witness: concrete SGR report `ESC [ < 0 ; 1 M` with trailing input,
and a concrete X10 report. -/
theorem C7_witness :
    (∀ b ∈ ([48, 59, 49] : List Nat), b ≠ 77 ∧ b ≠ 109) ∧
    read_key (.byte 27 :: .byte 91 :: .byte 60 ::
        ([48, 59, 49] : List Nat).map InEv.byte ++ .byte 77 :: [.byte 10])
        ⟨true, 24, 80⟩
      = (KEY_UNKNOWN, [.byte 10], ⟨true, 24, 80⟩) :=
  ⟨by decide,
   (C7_mouse_report_returns_unknown [48, 59, 49] [.byte 10] ⟨true, 24, 80⟩ 0 1 2
      (by decide)).1⟩

/-- A reachable stack state for C4: one bold frame pushed (depth 1). -/
def c4_state : TuiStyleString := tui_push false tui_start_zstr [27, 91, 49, 109]

/-- C4 counterexample: the claim quantifies over *every* style S, but
`tui_push` silently ignores an empty style string while `tui_pop`
unconditionally removes a frame, so from the reachable depth-1 state
`c4_state`, `push(""); pop()` changes both the depth (1 to 0) and the
active flag set (bold to none). -/
theorem C4_counterexample :
    (tui_pop false (tui_push false c4_state [])).styles.depth ≠ c4_state.styles.depth ∧
    active_flags (tui_pop false (tui_push false c4_state [])).styles
      ≠ active_flags c4_state.styles := by
  decide

/-- Folded ORs over frames 1..d agree when the flag words agree there. -/
theorem active_flags_congr (f g : Nat → Nat) (d : Nat)
    (h : ∀ i, 1 ≤ i → i ≤ d → f i = g i) :
    ((List.range d).map (fun j => f (j + 1))).foldr (· ||| ·) 0
      = ((List.range d).map (fun j => g (j + 1))).foldr (· ||| ·) 0 := by
  have : (List.range d).map (fun j => f (j + 1)) = (List.range d).map (fun j => g (j + 1)) := by
    apply List.map_congr_left
    intro j hj
    exact h (j + 1) (by omega) (by simpa using List.mem_range.mp hj)
  rw [this]

/-- C4 (amended): for every stack state, every NON-EMPTY style, and either
color mode, if the push is within capacity (depth < 7) then
`push(S); pop()` restores both the depth and the set of active category
flags (the OR of the flag words of the frames on the stack) to exactly
their values before the push. -/
theorem C4_push_pop_restores (noColors : Bool) (ss : TuiStyleString)
    (style : List Nat) (hs : style ≠ []) (hd : ss.styles.depth < 7) :
    (tui_pop noColors (tui_push noColors ss style)).styles.depth = ss.styles.depth ∧
    active_flags (tui_pop noColors (tui_push noColors ss style)).styles
      = active_flags ss.styles := by
  have hpush : tui_push noColors ss style =
      { str := ss.str ++ (if noColors then [] else style),
        styles :=
          { style_strs := Function.update ss.styles.style_strs (ss.styles.depth + 1)
              (style.take 31),
            style_flags := Function.update ss.styles.style_flags (ss.styles.depth + 1)
              (tui_style_flags style),
            depth := ss.styles.depth + 1 } } := by
    rw [tui_push, if_neg hs, if_neg (by omega)]
  have hpop : (tui_pop noColors (tui_push noColors ss style)).styles =
      { style_strs := Function.update ss.styles.style_strs (ss.styles.depth + 1)
          (style.take 31),
        style_flags := Function.update ss.styles.style_flags (ss.styles.depth + 1)
          (tui_style_flags style),
        depth := ss.styles.depth } := by
    rw [hpush, tui_pop]
    simp only [Nat.add_eq_zero, one_ne_zero, and_false, if_false]
    split <;> rfl
  rw [hpop]
  refine ⟨rfl, ?_⟩
  unfold active_flags
  dsimp only
  apply active_flags_congr
  intro i h1 h2
  apply Function.update_noteq
  omega

/-- C4 witness: from the reachable depth-1 state, pushing the non-empty
background style `ESC [ 4 4 m` and popping restores depth and flags. -/
theorem C4_witness :
    (([27, 91, 52, 52, 109] : List Nat) ≠ []) ∧ c4_state.styles.depth < 7 ∧
    ((tui_pop false (tui_push false c4_state [27, 91, 52, 52, 109])).styles.depth
        = c4_state.styles.depth ∧
      active_flags (tui_pop false (tui_push false c4_state [27, 91, 52, 52, 109])).styles
        = active_flags c4_state.styles) :=
  ⟨by decide, by decide,
   C4_push_pop_restores false c4_state [27, 91, 52, 52, 109] (by decide) (by decide)⟩

/-- C5: with colors enabled, `tui_print` of a style with a non-empty
category bitmask around the EMPTY text appends exactly the style bytes,
then the targeted reset codes for every category the style sets, then the
bottom-to-top re-emission of the frames on the stack that set any of those
categories - the same reconciliation as `tui_pop` - and leaves the stack
itself untouched, so no style code is left unmatched in the stream. -/
theorem C5_print_empty_reconciles (ss : TuiStyleString) (style : List Nat)
    (h : tui_style_flags style ≠ 0) :
    tui_print false ss style [] =
      { str := ss.str ++ style ++ tui_emit_resets false (tui_style_flags style) ++
          tui_reemit_flags false ss.styles (tui_style_flags style),
        styles := ss.styles } := by
  have hs : style ≠ [] := by
    intro he
    exact h (by rw [he]; rfl)
  rw [tui_print]
  simp [hs, h]

/-- A stack state with one background frame, for the C5 witness. -/
def c5_state : TuiStyleString := tui_push false tui_start_zstr [27, 91, 52, 52, 109]

/-- C5 witness: printing the bold style around empty text over a
background frame emits bold, bold-off, and nothing else (the background
frame sets no bold bit), leaving the stack unchanged. -/
theorem C5_witness :
    tui_style_flags [27, 91, 49, 109] ≠ 0 ∧
    tui_print false c5_state [27, 91, 49, 109] [] =
      { str := c5_state.str ++ [27, 91, 49, 109] ++
          tui_emit_resets false (tui_style_flags [27, 91, 49, 109]) ++
          tui_reemit_flags false c5_state.styles (tui_style_flags [27, 91, 49, 109]),
        styles := c5_state.styles } :=
  ⟨by decide, C5_print_empty_reconciles c5_state [27, 91, 49, 109] (by decide)⟩

/-- The `while (end_pos >= 0 && !isalnum(...)) end_pos--` scan never moves up. -/
theorem skipNonAlnum_le (data : List Nat) (e : Int) : skipNonAlnum data e ≤ e := by
  have H : ∀ n (x : Int), (x + 1).toNat = n → skipNonAlnum data x ≤ x := by
    intro n
    induction n using Nat.strong_induction_on with
    | _ n ih =>
      intro x hn
      rw [skipNonAlnum]
      split_ifs with hc
      · have hrec := ih ((x - 1) + 1).toNat (by omega) (x - 1) rfl
        omega
      · omega
  exact H _ e rfl

/-- The scan stops no lower than index -1. -/
theorem skipNonAlnum_ge (data : List Nat) (e : Int) (h : -1 ≤ e) :
    -1 ≤ skipNonAlnum data e := by
  have H : ∀ n (x : Int), (x + 1).toNat = n → -1 ≤ x → -1 ≤ skipNonAlnum data x := by
    intro n
    induction n using Nat.strong_induction_on with
    | _ n ih =>
      intro x hn hx
      rw [skipNonAlnum]
      split_ifs with hc
      · exact ih ((x - 1) + 1).toNat (by omega) (x - 1) rfl (by omega)
      · omega
  exact H _ e rfl h

/-- The `while (start_pos >= 0 && isalnum(...)) start_pos--` scan never moves up. -/
theorem skipAlnum_le (data : List Nat) (e : Int) : skipAlnum data e ≤ e := by
  have H : ∀ n (x : Int), (x + 1).toNat = n → skipAlnum data x ≤ x := by
    intro n
    induction n using Nat.strong_induction_on with
    | _ n ih =>
      intro x hn
      rw [skipAlnum]
      split_ifs with hc
      · have hrec := ih ((x - 1) + 1).toNat (by omega) (x - 1) rfl
        omega
      · omega
  exact H _ e rfl

/-- The scan stops no lower than index -1. -/
theorem skipAlnum_ge (data : List Nat) (e : Int) (h : -1 ≤ e) :
    -1 ≤ skipAlnum data e := by
  have H : ∀ n (x : Int), (x + 1).toNat = n → -1 ≤ x → -1 ≤ skipAlnum data x := by
    intro n
    induction n using Nat.strong_induction_on with
    | _ n ih =>
      intro x hn hx
      rw [skipAlnum]
      split_ifs with hc
      · exact ih ((x - 1) + 1).toNat (by omega) (x - 1) rfl (by omega)
      · omega
  exact H _ e rfl h

theorem handle_key_insert (input : TuiInput) (key : Int)
    (h32 : 32 ≤ key) (h127 : key < 127) :
    tui_input_handle_key input key =
      (true, { text := input.text.take input.cursor.toNat ++
                 key.toNat :: input.text.drop input.cursor.toNat,
               cursor := input.cursor + 1 }) := by
  unfold tui_input_handle_key
  dsimp only
  rw [if_neg (by omega), if_neg (by omega), if_neg (by simp [ARROW_LEFT]; omega),
      if_neg (by simp [ARROW_RIGHT]; omega), if_neg (by simp [BACKSPACE]; omega),
      if_neg (by simp [DEL_KEY]; omega), if_neg (by omega), if_neg (by omega),
      if_neg (by omega), if_pos (by simp [iscntrlInt]; omega)]

theorem handle_key_unrecognized (input : TuiInput) (key : Int)
    (hset : ¬(key = 1 ∨ key = 5 ∨ key = 2 ∨ key = 6 ∨ key = 8 ∨ key = 11 ∨
      key = 21 ∨ key = 23 ∨ key = 127 ∨ key = 1000 ∨ key = 1001 ∨ key = 1004))
    (hpr : ¬(32 ≤ key ∧ key < 127)) :
    tui_input_handle_key input key = (false, input) := by
  unfold tui_input_handle_key
  dsimp only
  rw [if_neg (by omega), if_neg (by omega), if_neg (by simp [ARROW_LEFT]; omega),
      if_neg (by simp [ARROW_RIGHT]; omega), if_neg (by simp [BACKSPACE]; omega),
      if_neg (by simp [DEL_KEY]; omega), if_neg (by omega), if_neg (by omega),
      if_neg (by omega), if_neg (by simp [iscntrlInt]; omega)]

theorem handle_key_inv (input : TuiInput) (key : Int)
    (h0 : 0 ≤ input.cursor) (h1 : input.cursor ≤ input.text.length) :
    0 ≤ (tui_input_handle_key input key).2.cursor ∧
      (tui_input_handle_key input key).2.cursor
        ≤ (tui_input_handle_key input key).2.text.length := by
  have hsp1 := skipNonAlnum_le input.text (input.cursor - 1)
  have hsp2 := skipNonAlnum_ge input.text (input.cursor - 1) (by omega)
  have hsp3 := skipAlnum_le input.text (skipNonAlnum input.text (input.cursor - 1))
  have hsp4 := skipAlnum_ge input.text (skipNonAlnum input.text (input.cursor - 1)) hsp2
  unfold tui_input_handle_key
  (try dsimp only)
  by_cases k1 : key = 1
  · rw [if_pos k1]; (try dsimp only); omega
  rw [if_neg k1]
  by_cases k2 : key = 5
  · rw [if_pos k2]; (try dsimp only); omega
  rw [if_neg k2]
  by_cases k3 : key = 2 ∨ key = ARROW_LEFT
  · rw [if_pos k3]; (try dsimp only); split_ifs <;> (try dsimp only) <;> omega
  rw [if_neg k3]
  by_cases k4 : key = 6 ∨ key = ARROW_RIGHT
  · rw [if_pos k4]; (try dsimp only); split_ifs <;> (try dsimp only) <;> omega
  rw [if_neg k4]
  by_cases k5 : key = BACKSPACE ∨ key = 8
  · rw [if_pos k5]; (try dsimp only); split_ifs <;>
      (try simp only [List.length_append, List.length_take, List.length_drop]) <;> omega
  rw [if_neg k5]
  by_cases k6 : key = DEL_KEY
  · rw [if_pos k6]; (try dsimp only); split_ifs <;>
      (try simp only [List.length_append, List.length_take, List.length_drop]) <;> omega
  rw [if_neg k6]
  by_cases k7 : key = 11
  · rw [if_pos k7]; (try dsimp only); split_ifs <;>
      (try simp only [List.length_take]) <;> omega
  rw [if_neg k7]
  by_cases k8 : key = 21
  · rw [if_pos k8]; (try dsimp only); split_ifs <;>
      (try simp only [List.length_drop]) <;> omega
  rw [if_neg k8]
  by_cases k9 : key = 23
  · rw [if_pos k9]; (try dsimp only); split_ifs <;>
      (try simp only [List.length_append, List.length_take, List.length_drop]) <;> omega
  rw [if_neg k9]
  by_cases k10 : ¬ iscntrlInt key ∧ 32 ≤ key ∧ key < 127
  · rw [if_pos k10]; (try dsimp only)
    simp only [List.length_append, List.length_take, List.length_cons, List.length_drop]
    omega
  · rw [if_neg k10]; (try dsimp only); omega

/-- C10: the input-field key handler inserts a typed character exactly for
printable ASCII key codes 32..126 (then it reports handled, the text grows
by one and the cursor advances); every key outside its recognized
editing/navigation set (Ctrl-A/B/E/F/H/K/U/W, arrows, backspace, delete)
that is not printable ASCII is reported unhandled with text and cursor
untouched; and every call preserves 0 <= cursor <= length(text). -/
theorem C10_input_handler (input : TuiInput) (key : Int)
    (h0 : 0 ≤ input.cursor) (h1 : input.cursor ≤ input.text.length) :
    (0 ≤ (tui_input_handle_key input key).2.cursor ∧
      (tui_input_handle_key input key).2.cursor
        ≤ (tui_input_handle_key input key).2.text.length) ∧
    (32 ≤ key → key < 127 →
      (tui_input_handle_key input key).1 = true ∧
      (tui_input_handle_key input key).2.text.length = input.text.length + 1 ∧
      (tui_input_handle_key input key).2.cursor = input.cursor + 1) ∧
    (¬(key = 1 ∨ key = 5 ∨ key = 2 ∨ key = 6 ∨ key = 8 ∨ key = 11 ∨
        key = 21 ∨ key = 23 ∨ key = BACKSPACE ∨ key = ARROW_LEFT ∨
        key = ARROW_RIGHT ∨ key = DEL_KEY) →
      ¬(32 ≤ key ∧ key < 127) →
      (tui_input_handle_key input key).1 = false ∧
      (tui_input_handle_key input key).2 = input) := by
  refine ⟨handle_key_inv input key h0 h1, ?_, ?_⟩
  · intro h32 h127
    rw [handle_key_insert input key h32 h127]
    refine ⟨rfl, ?_, rfl⟩
    simp only [List.length_append, List.length_take, List.length_cons, List.length_drop]
    omega
  · intro hset hpr
    rw [handle_key_unrecognized input key (by simp [BACKSPACE, ARROW_LEFT, ARROW_RIGHT, DEL_KEY] at hset; tauto) hpr]
    exact ⟨rfl, rfl⟩

/-- C10 witness: typing `c` (99) into the field `ab` with the cursor at 1
keeps the invariant, inserts, and advances the cursor. -/
theorem C10_witness :
    0 ≤ (TuiInput.mk [97, 98] 1).cursor ∧
    ((TuiInput.mk [97, 98] 1).cursor : Int) ≤ (TuiInput.mk [97, 98] 1).text.length ∧
    (0 ≤ (tui_input_handle_key (TuiInput.mk [97, 98] 1) 99).2.cursor ∧
      (tui_input_handle_key (TuiInput.mk [97, 98] 1) 99).2.cursor
        ≤ (tui_input_handle_key (TuiInput.mk [97, 98] 1) 99).2.text.length) :=
  ⟨by decide, by decide,
   (C10_input_handler (TuiInput.mk [97, 98] 1) 99 (by decide) (by decide)).1⟩

/-- Well-formed line-buffer content: a sequence of complete items, each
either an `ESC [` escape sequence terminated by an ASCII letter (with no
letter among its parameter bytes) or a complete UTF-8 codepoint encoding
(ASCII byte other than ESC, or a 2-, 3-, or 4-byte sequence: lead byte in
the matching range followed by continuation bytes in 0x80..0xBF). -/
inductive TuiWF : List Nat → Prop
  | nil : TuiWF []
  | esc (ps : List Nat) (t : Nat) (rest : List Nat) :
      (∀ b ∈ ps, isLetterByte b = false) → isLetterByte t = true →
      TuiWF rest → TuiWF (27 :: 91 :: (ps ++ t :: rest))
  | ascii (b : Nat) (rest : List Nat) :
      b < 128 → b ≠ 27 → TuiWF rest → TuiWF (b :: rest)
  | two (b c1 : Nat) (rest : List Nat) :
      192 ≤ b → b < 224 → 128 ≤ c1 → c1 < 192 → TuiWF rest →
      TuiWF (b :: c1 :: rest)
  | three (b c1 c2 : Nat) (rest : List Nat) :
      224 ≤ b → b < 240 → 128 ≤ c1 → c1 < 192 → 128 ≤ c2 → c2 < 192 →
      TuiWF rest → TuiWF (b :: c1 :: c2 :: rest)
  | four (b c1 c2 c3 : Nat) (rest : List Nat) :
      240 ≤ b → b < 248 → 128 ≤ c1 → c1 < 192 → 128 ≤ c2 → c2 < 192 →
      128 ≤ c3 → c3 < 192 → TuiWF rest → TuiWF (b :: c1 :: c2 :: c3 :: rest)

/-- A byte string that is a concatenation of complete, validly encoded
UTF-8 codepoints (no split multi-byte sequence). -/
inductive CompleteUtf8 : List Nat → Prop
  | nil : CompleteUtf8 []
  | ascii (b : Nat) (rest : List Nat) :
      b < 128 → CompleteUtf8 rest → CompleteUtf8 (b :: rest)
  | two (b c1 : Nat) (rest : List Nat) :
      192 ≤ b → b < 224 → 128 ≤ c1 → c1 < 192 → CompleteUtf8 rest →
      CompleteUtf8 (b :: c1 :: rest)
  | three (b c1 c2 : Nat) (rest : List Nat) :
      224 ≤ b → b < 240 → 128 ≤ c1 → c1 < 192 → 128 ≤ c2 → c2 < 192 →
      CompleteUtf8 rest → CompleteUtf8 (b :: c1 :: c2 :: rest)
  | four (b c1 c2 c3 : Nat) (rest : List Nat) :
      240 ≤ b → b < 248 → 128 ≤ c1 → c1 < 192 → 128 ≤ c2 → c2 < 192 →
      128 ≤ c3 → c3 < 192 → CompleteUtf8 rest →
      CompleteUtf8 (b :: c1 :: c2 :: c3 :: rest)

set_option maxRecDepth 2000 in
/-- ASCII bytes have a clear top bit and are not continuation bytes. -/
theorem asciiBits : ∀ b < 128, b &&& 128 = 0 ∧ ¬(b &&& 192 = 128) := by decide

set_option maxRecDepth 2000 in
/-- Two-byte lead bytes: not continuations, top bit set, `& 0xE0 = 0xC0`. -/
theorem lead2Bits : ∀ b < 224, 192 ≤ b →
    ¬(b &&& 192 = 128) ∧ ¬(b &&& 128 = 0) ∧ b &&& 224 = 192 := by decide

set_option maxRecDepth 2000 in
/-- Three-byte lead bytes. -/
theorem lead3Bits : ∀ b < 240, 224 ≤ b →
    ¬(b &&& 192 = 128) ∧ ¬(b &&& 128 = 0) ∧ ¬(b &&& 224 = 192) ∧
      b &&& 240 = 224 := by decide

set_option maxRecDepth 2000 in
/-- Four-byte lead bytes. -/
theorem lead4Bits : ∀ b < 248, 240 ≤ b →
    ¬(b &&& 192 = 128) ∧ ¬(b &&& 128 = 0) ∧ ¬(b &&& 224 = 192) ∧
      ¬(b &&& 240 = 224) ∧ b &&& 248 = 240 := by decide


theorem spanNonLetter_ps (ps : List Nat) (t : Nat) (rest : List Nat)
    (hps : ∀ b ∈ ps, isLetterByte b = false) (ht : isLetterByte t = true) :
    spanNonLetter (ps ++ t :: rest) = (ps.length, t :: rest) := by
  induction ps with
  | nil => simp [spanNonLetter, ht]
  | cons p pr ih =>
    have hp := hps p (by simp)
    have ih2 := ih (fun b hb => hps b (by simp [hb]))
    simp only [List.cons_append, spanNonLetter, hp, Bool.false_eq_true, if_false,
      List.append_eq, ih2, List.length_cons]

theorem truncate_go_esc (ps : List Nat) (t : Nat) (rest : List Nat)
    (w : Nat) (m : Int)
    (hps : ∀ b ∈ ps, isLetterByte b = false) (ht : isLetterByte t = true) :
    truncate_go (27 :: 91 :: (ps ++ t :: rest)) w m
      = 3 + ps.length + truncate_go rest w m := by
  rw [truncate_go.eq_def]
  dsimp only
  rw [if_pos ⟨rfl, rfl⟩]
  split
  · next n heq =>
    simp only [List.tail_cons] at heq
    rw [spanNonLetter_ps ps t rest hps ht] at heq
    simp at heq
  · next n t2 r2 heq =>
    simp only [List.tail_cons] at heq
    rw [spanNonLetter_ps ps t rest hps ht] at heq
    obtain ⟨h1, h2, h3⟩ : ps.length = n ∧ t = t2 ∧ rest = r2 := by
      simpa using heq
    rw [← h1, ← h3]

theorem truncate_go_ascii (b : Nat) (rest : List Nat) (w : Nat) (m : Int)
    (hb : b < 128) (hb27 : b ≠ 27) :
    truncate_go (b :: rest) w m
      = if (w : Int) + 1 > m then 0 else 1 + truncate_go rest (w + 1) m := by
  obtain ⟨ha1, ha2⟩ := asciiBits b hb
  rw [truncate_go.eq_def]
  dsimp only
  rw [if_neg (by tauto), if_neg ha2]
  simp only [decode_utf8, ha1, if_pos, codepoint_width, hb, if_true]
  simp [hb]

theorem truncate_go_two (b c1 : Nat) (rest : List Nat) (w : Nat) (m : Int)
    (hb1 : 192 ≤ b) (hb2 : b < 224) :
    truncate_go (b :: c1 :: rest) w m
      = if (w : Int) + codepoint_width (((b &&& 31) <<< 6) ||| (c1 &&& 63)) > m
          then 0
        else 2 + truncate_go rest
          (w + codepoint_width (((b &&& 31) <<< 6) ||| (c1 &&& 63))) m := by
  obtain ⟨hc, hz, he⟩ := lead2Bits b hb2 hb1
  have hesc : ¬(b = 27 ∧ (c1 :: rest).head? = some 91) :=
    fun hcon => absurd hcon.1 (by omega)
  have hd : decode_utf8 b (c1 :: rest) = (((b &&& 31) <<< 6) ||| (c1 &&& 63), 1) := by
    unfold decode_utf8
    rw [if_neg hz, if_pos ⟨he, by simp⟩]
    simp
  rw [truncate_go.eq_def]
  dsimp only
  rw [if_neg hesc, if_neg hc, hd]
  dsimp only [List.drop]

theorem truncate_go_three (b c1 c2 : Nat) (rest : List Nat) (w : Nat) (m : Int)
    (hb1 : 224 ≤ b) (hb2 : b < 240) :
    truncate_go (b :: c1 :: c2 :: rest) w m
      = if (w : Int) + codepoint_width
            (((b &&& 15) <<< 12) ||| ((c1 &&& 63) <<< 6) ||| (c2 &&& 63)) > m
          then 0
        else 3 + truncate_go rest
          (w + codepoint_width
            (((b &&& 15) <<< 12) ||| ((c1 &&& 63) <<< 6) ||| (c2 &&& 63))) m := by
  obtain ⟨hc, hz, h2, he⟩ := lead3Bits b hb2 hb1
  have hesc : ¬(b = 27 ∧ (c1 :: c2 :: rest).head? = some 91) :=
    fun hcon => absurd hcon.1 (by omega)
  have hd : decode_utf8 b (c1 :: c2 :: rest)
      = (((b &&& 15) <<< 12) ||| ((c1 &&& 63) <<< 6) ||| (c2 &&& 63), 2) := by
    unfold decode_utf8
    rw [if_neg hz, if_neg (by simpa using h2), if_pos ⟨he, by simp⟩]
    simp
  rw [truncate_go.eq_def]
  dsimp only
  rw [if_neg hesc, if_neg hc, hd]
  dsimp only [List.drop]

theorem truncate_go_four (b c1 c2 c3 : Nat) (rest : List Nat) (w : Nat) (m : Int)
    (hb1 : 240 ≤ b) (hb2 : b < 248) :
    truncate_go (b :: c1 :: c2 :: c3 :: rest) w m
      = if (w : Int) + codepoint_width
            (((b &&& 7) <<< 18) ||| ((c1 &&& 63) <<< 12) |||
              ((c2 &&& 63) <<< 6) ||| (c3 &&& 63)) > m
          then 0
        else 4 + truncate_go rest
          (w + codepoint_width
            (((b &&& 7) <<< 18) ||| ((c1 &&& 63) <<< 12) |||
              ((c2 &&& 63) <<< 6) ||| (c3 &&& 63))) m := by
  obtain ⟨hc, hz, h2, h3, he⟩ := lead4Bits b hb2 hb1
  have hesc : ¬(b = 27 ∧ (c1 :: c2 :: c3 :: rest).head? = some 91) :=
    fun hcon => absurd hcon.1 (by omega)
  have hd : decode_utf8 b (c1 :: c2 :: c3 :: rest)
      = (((b &&& 7) <<< 18) ||| ((c1 &&& 63) <<< 12) |||
          ((c2 &&& 63) <<< 6) ||| (c3 &&& 63), 3) := by
    unfold decode_utf8
    rw [if_neg hz, if_neg (by simpa using h2), if_neg (by simpa using h3),
      if_pos ⟨he, by simp⟩]
    simp
  rw [truncate_go.eq_def]
  dsimp only
  rw [if_neg hesc, if_neg hc, hd]
  dsimp only [List.drop]

theorem truncate_go_wf (l : List Nat) (h : TuiWF l) :
    ∀ (w : Nat) (m : Int), TuiWF (l.take (truncate_go l w m)) := by
  induction h with
  | nil =>
    intro w m
    rw [truncate_go]
    exact TuiWF.nil
  | esc ps t rest hps ht hrest ih =>
    intro w m
    rw [truncate_go_esc ps t rest w m hps ht]
    rw [show 3 + ps.length + truncate_go rest w m
        = ((1 + (ps.length + (1 + truncate_go rest w m))) + 1) from by omega]
    rw [List.take_succ_cons]
    rw [show 1 + (ps.length + (1 + truncate_go rest w m))
        = (ps.length + (1 + truncate_go rest w m)) + 1 from by omega]
    rw [List.take_succ_cons, List.take_append]
    rw [show 1 + truncate_go rest w m = truncate_go rest w m + 1 from by omega]
    rw [List.take_succ_cons]
    exact TuiWF.esc ps t _ hps ht (ih w m)
  | ascii b rest hb hb27 hrest ih =>
    intro w m
    rw [truncate_go_ascii b rest w m hb hb27]
    split_ifs with hw
    · rw [List.take_zero]
      exact TuiWF.nil
    · rw [show 1 + truncate_go rest (w + 1) m = truncate_go rest (w + 1) m + 1 from by omega]
      rw [List.take_succ_cons]
      exact TuiWF.ascii b _ hb hb27 (ih (w + 1) m)
  | two b c1 rest hb1 hb2 hc1 hc2 hrest ih =>
    intro w m
    rw [truncate_go_two b c1 rest w m hb1 hb2]
    split_ifs with hw
    · rw [List.take_zero]
      exact TuiWF.nil
    · rw [show 2 + truncate_go rest (w + codepoint_width ((b &&& 31) <<< 6 ||| c1 &&& 63)) m
          = (truncate_go rest (w + codepoint_width ((b &&& 31) <<< 6 ||| c1 &&& 63)) m + 1) + 1
          from by omega]
      rw [List.take_succ_cons, List.take_succ_cons]
      exact TuiWF.two b c1 _ hb1 hb2 hc1 hc2 (ih _ m)
  | three b c1 c2 rest hb1 hb2 hc1 hc2 hd1 hd2 hrest ih =>
    intro w m
    rw [truncate_go_three b c1 c2 rest w m hb1 hb2]
    split_ifs with hw
    · rw [List.take_zero]
      exact TuiWF.nil
    · rw [show 3 + truncate_go rest
            (w + codepoint_width ((b &&& 15) <<< 12 ||| (c1 &&& 63) <<< 6 ||| c2 &&& 63)) m
          = ((truncate_go rest
              (w + codepoint_width ((b &&& 15) <<< 12 ||| (c1 &&& 63) <<< 6 ||| c2 &&& 63)) m
              + 1) + 1) + 1 from by omega]
      rw [List.take_succ_cons, List.take_succ_cons, List.take_succ_cons]
      exact TuiWF.three b c1 c2 _ hb1 hb2 hc1 hc2 hd1 hd2 (ih _ m)
  | four b c1 c2 c3 rest hb1 hb2 hc1 hc2 hd1 hd2 he1 he2 hrest ih =>
    intro w m
    rw [truncate_go_four b c1 c2 c3 rest w m hb1 hb2]
    split_ifs with hw
    · rw [List.take_zero]
      exact TuiWF.nil
    · rw [show 4 + truncate_go rest
            (w + codepoint_width ((b &&& 7) <<< 18 ||| (c1 &&& 63) <<< 12 |||
              (c2 &&& 63) <<< 6 ||| c3 &&& 63)) m
          = (((truncate_go rest
              (w + codepoint_width ((b &&& 7) <<< 18 ||| (c1 &&& 63) <<< 12 |||
                (c2 &&& 63) <<< 6 ||| c3 &&& 63)) m
              + 1) + 1) + 1) + 1 from by omega]
      rw [List.take_succ_cons, List.take_succ_cons, List.take_succ_cons,
        List.take_succ_cons]
      exact TuiWF.four b c1 c2 c3 _ hb1 hb2 hc1 hc2 hd1 hd2 he1 he2 (ih _ m)

/-- Stripping a non-escape byte keeps it. -/
theorem strip_escapes_cons (b : Nat) (rest : List Nat) (hb : b ≠ 27) :
    strip_escapes (b :: rest) = b :: strip_escapes rest := by
  rw [strip_escapes.eq_def]
  dsimp only
  rw [if_neg (fun hcon => absurd hcon.1 hb)]

theorem strip_escapes_esc (ps : List Nat) (t : Nat) (rest : List Nat)
    (hps : ∀ b ∈ ps, isLetterByte b = false) (ht : isLetterByte t = true) :
    strip_escapes (27 :: 91 :: (ps ++ t :: rest)) = strip_escapes rest := by
  rw [strip_escapes.eq_def]
  dsimp only
  rw [if_pos ⟨rfl, rfl⟩]
  split
  · next heq =>
    simp only [List.tail_cons] at heq
    rw [spanNonLetter_ps ps t rest hps ht] at heq
    simp at heq
  · next n t2 r2 heq =>
    simp only [List.tail_cons] at heq
    rw [spanNonLetter_ps ps t rest hps ht] at heq
    obtain ⟨h1, h2, h3⟩ : ps.length = n ∧ t = t2 ∧ rest = r2 := by
      simpa using heq
    rw [← h3]

theorem strip_escapes_wf (l : List Nat) (h : TuiWF l) :
    CompleteUtf8 (strip_escapes l) := by
  induction h with
  | nil =>
    rw [strip_escapes]
    exact CompleteUtf8.nil
  | esc ps t rest hps ht hrest ih =>
    rw [strip_escapes_esc ps t rest hps ht]
    exact ih
  | ascii b rest hb hb27 hrest ih =>
    rw [strip_escapes_cons b rest hb27]
    exact CompleteUtf8.ascii b _ hb ih
  | two b c1 rest hb1 hb2 hc1 hc2 hrest ih =>
    rw [strip_escapes_cons b _ (by omega), strip_escapes_cons c1 _ (by omega)]
    exact CompleteUtf8.two b c1 _ hb1 hb2 hc1 hc2 ih
  | three b c1 c2 rest hb1 hb2 hc1 hc2 hd1 hd2 hrest ih =>
    rw [strip_escapes_cons b _ (by omega), strip_escapes_cons c1 _ (by omega),
      strip_escapes_cons c2 _ (by omega)]
    exact CompleteUtf8.three b c1 c2 _ hb1 hb2 hc1 hc2 hd1 hd2 ih
  | four b c1 c2 c3 rest hb1 hb2 hc1 hc2 hd1 hd2 he1 he2 hrest ih =>
    rw [strip_escapes_cons b _ (by omega), strip_escapes_cons c1 _ (by omega),
      strip_escapes_cons c2 _ (by omega), strip_escapes_cons c3 _ (by omega)]
    exact CompleteUtf8.four b c1 c2 c3 _ hb1 hb2 hc1 hc2 hd1 hd2 he1 he2 ih

/-- C6: for every well-formed line-buffer content (a sequence of complete
escape sequences and complete UTF-8 codepoints) and every column budget,
the prefix committed by the width-aware truncation (`truncate_at_width`)
is itself a sequence of complete items - it never splits a multi-byte
codepoint or an escape sequence - and stripping escape sequences from it
yields a sequence of complete, validly decoded codepoints. -/
theorem C6_truncation_never_splits (l : List Nat) (max_width : Int)
    (h : TuiWF l) :
    TuiWF (l.take (truncate_at_width l max_width)) ∧
    CompleteUtf8 (strip_escapes (l.take (truncate_at_width l max_width))) :=
  ⟨truncate_go_wf l h 0 max_width,
   strip_escapes_wf _ (truncate_go_wf l h 0 max_width)⟩

/-- Concrete buffer for the C6 witness:
`a`, `ESC [ 4 4 m`, the two-byte codepoint `0xC3 0xA9`, `b`. -/
def c6_buf : List Nat := [97, 27, 91, 52, 52, 109, 195, 169, 98]

/-- C6 witness: the concrete buffer is well formed and truncation at
width budget 1 commits only complete items. -/
theorem C6_witness :
    TuiWF c6_buf ∧
    (TuiWF (c6_buf.take (truncate_at_width c6_buf 1)) ∧
      CompleteUtf8 (strip_escapes (c6_buf.take (truncate_at_width c6_buf 1)))) := by
  have hw : TuiWF c6_buf :=
    TuiWF.ascii 97 _ (by omega) (by omega)
      (TuiWF.esc [52, 52] 109 _ (by decide) (by decide)
        (TuiWF.two 195 169 _ (by omega) (by omega) (by omega) (by omega)
          (TuiWF.ascii 98 [] (by omega) (by omega) TuiWF.nil)))
  exact ⟨hw, C6_truncation_never_splits c6_buf 1 hw⟩
